import Mathlib

/-!
Verification of the India Pulse slide-to-video pipeline
(`src/app/api/india-news/route.ts` and the page component it feeds).

The TypeScript source is shallowly embedded: every pure function of the
pipeline (duration planner, concat-manifest builder, silence WAV
generator, word wrapper, content normalizer) is translated into an
executable Lean definition, and the stateful generate-video handler is
translated into an explicit state-and-trace transition function.
Strings are Lean `String`s; JavaScript string routines that are not
directly available (regex split, `trim`, `slice`) are modelled by
structurally recursive char-list functions so that every definition
evaluates by kernel reduction.  JavaScript numbers are modelled as `Nat`
(durations, counts, byte values); `DataView` writes truncate exactly as
the corresponding JS operations do.
-/

/-! ## Shared string utilities (models of the JS string primitives used) -/

/-- Model of JavaScript `Array.prototype.join("\n")`. -/
def joinLines : List String → String
  | [] => ""
  | [x] => x
  | x :: y :: t => x ++ "\n" ++ joinLines (y :: t)

/-- Split a char list at every occurrence of `sep` (model of
`String.prototype.split` with a single-character separator). -/
def splitChar (sep : Char) : List Char → List (List Char)
  | [] => [[]]
  | c :: cs =>
      if c = sep then [] :: splitChar sep cs
      else
        match splitChar sep cs with
        | [] => [[c]]
        | h :: t => (c :: h) :: t

/-- The lines of a string, i.e. its fragments between newline characters. -/
def linesOf (s : String) : List String :=
  (splitChar '\n' s.toList).map String.mk

/-! ## Duration planner

Source: the `totalDuration` memo (route.ts page component, lines 135–144)
and the identical computation in `handleGenerateVideo` (lines 212–216). -/

def MIN_VIDEO_DURATION_SECONDS : Nat := 240

def FALLBACK_SLIDE_DURATION : Nat := 40

/-- `Math.max(Math.ceil(MIN_VIDEO_DURATION_SECONDS / itemCount), FALLBACK_SLIDE_DURATION)`.
For `itemCount ≥ 1`, `Math.ceil` of the real quotient is the ceiling
division `(a + n − 1) / n`. -/
def perSlideDuration (itemCount : Nat) : Nat :=
  max ((MIN_VIDEO_DURATION_SECONDS + itemCount - 1) / itemCount) FALLBACK_SLIDE_DURATION

/-- The `totalDuration` memo: `0` for an empty update list, otherwise
`perSlide * updates.length`. -/
def totalDuration (itemCount : Nat) : Nat :=
  if itemCount = 0 then 0 else perSlideDuration itemCount * itemCount

/-! ## Concatenation manifest builder (`buildConcatScript`, route.ts lines 616–627) -/

/-- `buildConcatScript`: for each slide a `file` directive and a `duration`
directive joined by newlines, then a trailing `file` directive repeating the
last slide name.  (`slideNames[slideNames.length - 1]` on an empty array is
JS `undefined`, which the template literal renders as `"undefined"`.) -/
def buildConcatScript (slideNames : List String) (durationSeconds : Nat) : String :=
  let body := joinLines (slideNames.map (fun name =>
    "file \x27" ++ name ++ "\x27\nduration " ++ toString durationSeconds))
  let last := slideNames.getLastD "undefined"
  body ++ "\nfile \x27" ++ last ++ "\x27"

/-- The line-by-line reading of the manifest: a `file` line and a `duration`
line per slide, in input order, then one trailing `file` line repeating the
final slide's name with no duration after it. -/
def manifestLines (slideNames : List String) (durationSeconds : Nat) : List String :=
  (slideNames.flatMap (fun name =>
    ["file \x27" ++ name ++ "\x27", "duration " ++ toString durationSeconds])) ++
  ["file \x27" ++ slideNames.getLastD "undefined" ++ "\x27"]

lemma joinLines_cons_of_ne_nil (x : String) (L : List String) (h : L ≠ []) :
    joinLines (x :: L) = x ++ "\n" ++ joinLines L := by
  cases L with
  | nil => exact absurd rfl h
  | cons y t => rfl

lemma joinLines_append_single (L : List String) (x : String) (h : L ≠ []) :
    joinLines (L ++ [x]) = joinLines L ++ "\n" ++ x := by
  induction L with
  | nil => exact absurd rfl h
  | cons y t ih =>
      cases t with
      | nil => rfl
      | cons z t' =>
          rw [List.cons_append, joinLines_cons_of_ne_nil y ((z :: t') ++ [x]) (by simp),
            joinLines_cons_of_ne_nil y (z :: t') (by simp), ih (by simp)]
          simp only [String.append_assoc]

lemma flatMap_pair_ne_nil (f g : String → String) (names : List String) (h : names ≠ []) :
    names.flatMap (fun n => [f n, g n]) ≠ [] := by
  cases names with
  | nil => exact absurd rfl h
  | cons n t => simp [List.flatMap_cons]

lemma joinLines_flatMap_pair (f g : String → String) :
    ∀ names : List String, names ≠ [] →
      joinLines (names.flatMap (fun n => [f n, g n])) =
        joinLines (names.map (fun n => f n ++ "\n" ++ g n)) := by
  intro names
  induction names with
  | nil => intro h; exact absurd rfl h
  | cons n t ih =>
      intro _
      cases t with
      | nil => simp [joinLines]
      | cons m t' =>
          rw [List.flatMap_cons, List.map_cons]
          have hflat : (m :: t').flatMap (fun n => [f n, g n]) ≠ [] :=
            flatMap_pair_ne_nil f g (m :: t') (by simp)
          calc joinLines ([f n, g n] ++ (m :: t').flatMap (fun n => [f n, g n]))
              = f n ++ "\n" ++ (g n ++ "\n" ++
                  joinLines ((m :: t').flatMap (fun n => [f n, g n]))) := by
                rw [List.cons_append, List.cons_append, List.nil_append,
                  joinLines_cons_of_ne_nil _ _ (by simp [hflat]),
                  joinLines_cons_of_ne_nil _ _ hflat]
            _ = (f n ++ "\n" ++ g n) ++ "\n" ++
                  joinLines ((m :: t').map (fun n => f n ++ "\n" ++ g n)) := by
                rw [ih (by simp)]
                simp only [String.append_assoc]
            _ = joinLines ((f n ++ "\n" ++ g n) ::
                  (m :: t').map (fun n => f n ++ "\n" ++ g n)) := by
                rw [joinLines_cons_of_ne_nil _ _ (by simp)]

/-- C1 (counterexample): the manifest built from slides `[s0, s1, s2]` with
duration `40` contains exactly four `file` lines, not the five the claim
asserts (each of the three slides gets one `file` line, plus the single
trailing repetition of the last slide). -/
theorem buildConcatScript_fileLine_count :
    (linesOf (buildConcatScript ["s0", "s1", "s2"] 40)).countP
        (fun l => l.toList.take 5 = "file ".toList) = 4 ∧
    (linesOf (buildConcatScript ["s0", "s1", "s2"] 40)).countP
        (fun l => l.toList.take 5 = "file ".toList) ≠ 5 := by
  decide

/-- C1 (amended): for every non-empty slide list the manifest is exactly the
newline-join of: a `file` directive then a `duration` directive per slide, in
input order, then one trailing `file` directive repeating the final slide's
name with no duration.  For `[s0, s1, s2]` with duration `40` this is the
sequence `file s0 / duration 40 / file s1 / duration 40 / file s2 /
duration 40 / file s2` — four `file` lines and three `duration` lines, the
last slide named twice. -/
theorem buildConcatScript_lines_amended (slideNames : List String) (d : Nat)
    (h : slideNames ≠ []) :
    buildConcatScript slideNames d = joinLines (manifestLines slideNames d) ∧
    buildConcatScript ["s0", "s1", "s2"] 40 =
      "file \x27s0\x27\nduration 40\nfile \x27s1\x27\nduration 40\nfile \x27s2\x27\nduration 40\nfile \x27s2\x27" ∧
    linesOf (buildConcatScript ["s0", "s1", "s2"] 40) =
      ["file \x27s0\x27", "duration 40", "file \x27s1\x27", "duration 40",
       "file \x27s2\x27", "duration 40", "file \x27s2\x27"] ∧
    (linesOf (buildConcatScript ["s0", "s1", "s2"] 40)).countP
        (fun l => l.toList.take 9 = "duration ".toList) = 3 := by
  refine ⟨?_, by decide, by decide, by decide⟩
  show joinLines (slideNames.map (fun name =>
      "file \x27" ++ name ++ "\x27\nduration " ++ toString d)) ++
      "\nfile \x27" ++ slideNames.getLastD "undefined" ++ "\x27" =
      joinLines (manifestLines slideNames d)
  rw [manifestLines,
    joinLines_append_single _ _ (flatMap_pair_ne_nil _ _ slideNames h),
    joinLines_flatMap_pair (fun n => "file \x27" ++ n ++ "\x27")
      (fun _ => "duration " ++ toString d) slideNames h]
  have e1 : ("\x27\nduration " : String) = "\x27" ++ "\n" ++ "duration " := by decide
  have e2 : ("\nfile \x27" : String) = "\n" ++ "file \x27" := by decide
  simp only [e1, e2, String.append_assoc]

/-- C1 (witness): the amended manifest theorem instantiated at the concrete
slide list `[s0, s1, s2]` with duration `40`. -/
theorem buildConcatScript_lines_amended_witness :
    buildConcatScript ["s0", "s1", "s2"] 40 =
      joinLines (manifestLines ["s0", "s1", "s2"] 40) :=
  (buildConcatScript_lines_amended ["s0", "s1", "s2"] 40 (by decide)).1

/-- C2 (counterexample): at `itemCount = 1` we have
`itemCount * fallbackMinSlideDuration = 40 < 240 = minTotalDuration`, yet the
plan's total duration is `240`, not the `itemCount * fallbackMinSlideDuration`
the claim's "otherwise" branch asserts. -/
theorem durationPlan_small_count_total_cex :
    1 * FALLBACK_SLIDE_DURATION < MIN_VIDEO_DURATION_SECONDS ∧
    totalDuration 1 = 240 ∧
    totalDuration 1 ≠ 1 * FALLBACK_SLIDE_DURATION := by
  decide

/-- C2 (amended): for every `itemCount ≥ 1` the plan satisfies
`perSlideDurationSeconds ≥ fallbackMinSlideDuration`, the total duration is
always at least `minTotalDuration` (also when
`itemCount * fallbackMinSlideDuration < minTotalDuration`, where the claim
instead asserted `totalDurationSeconds = itemCount * fallbackMinSlideDuration`),
and whenever `itemCount * fallbackMinSlideDuration ≥ minTotalDuration` the
total equals `itemCount * fallbackMinSlideDuration` exactly. -/
theorem durationPlan_bounds_amended (n : Nat) (h : 1 ≤ n) :
    FALLBACK_SLIDE_DURATION ≤ perSlideDuration n ∧
    MIN_VIDEO_DURATION_SECONDS ≤ totalDuration n ∧
    (MIN_VIDEO_DURATION_SECONDS ≤ n * FALLBACK_SLIDE_DURATION →
      totalDuration n = n * FALLBACK_SLIDE_DURATION) := by
  have hn : ¬ n = 0 := by omega
  have htot : totalDuration n = perSlideDuration n * n := by
    simp [totalDuration, hn]
  refine ⟨Nat.le_max_right _ _, ?_, ?_⟩
  · by_cases h6 : 6 ≤ n
    · have h40 : FALLBACK_SLIDE_DURATION ≤ perSlideDuration n := Nat.le_max_right _ _
      have hmul : FALLBACK_SLIDE_DURATION * n ≤ perSlideDuration n * n :=
        Nat.mul_le_mul_right n h40
      have hbase : MIN_VIDEO_DURATION_SECONDS ≤ FALLBACK_SLIDE_DURATION * n := by
        show 240 ≤ 40 * n
        omega
      omega
    · interval_cases n <;> decide
  · intro hmn
    have h6 : 6 ≤ n := by
      have : 240 ≤ n * 40 := hmn
      omega
    have hq : (MIN_VIDEO_DURATION_SECONDS + n - 1) / n < 41 := by
      rw [Nat.div_lt_iff_lt_mul (by omega : 0 < n)]
      show 240 + n - 1 < 41 * n
      omega
    have hps : perSlideDuration n = 40 := by
      have : (MIN_VIDEO_DURATION_SECONDS + n - 1) / n ≤ 40 := by omega
      simp [perSlideDuration, FALLBACK_SLIDE_DURATION]
      omega
    rw [htot, hps]
    show 40 * n = n * 40
    omega

/-- C2 (witness): the amended duration-plan bounds instantiated at
`itemCount = 6`, where `6 * 40 ≥ 240` and the total is exactly `6 * 40`. -/
theorem durationPlan_bounds_amended_witness :
    FALLBACK_SLIDE_DURATION ≤ perSlideDuration 6 ∧
    MIN_VIDEO_DURATION_SECONDS ≤ totalDuration 6 ∧
    totalDuration 6 = 6 * FALLBACK_SLIDE_DURATION := by
  have h := durationPlan_bounds_amended 6 (by decide)
  exact ⟨h.1, h.2.1, h.2.2 (by decide)⟩

/-- C4: for every `itemCount ∈ [1, 50]` the plan satisfies
`perSlideDurationSeconds * itemCount = totalDurationSeconds` and
`perSlideDurationSeconds ≥ fallbackMinSlideDuration`. -/
theorem renderPlan_product_inv (n : Nat) (h1 : 1 ≤ n) (h2 : n ≤ 50) :
    perSlideDuration n * n = totalDuration n ∧
    FALLBACK_SLIDE_DURATION ≤ perSlideDuration n := by
  have hn : ¬ n = 0 := by omega
  constructor
  · simp [totalDuration, hn]
  · exact Nat.le_max_right _ _

/-- C4 (witness): the plan-product invariant instantiated at `itemCount = 7`. -/
theorem renderPlan_product_inv_witness :
    perSlideDuration 7 * 7 = totalDuration 7 ∧
    FALLBACK_SLIDE_DURATION ≤ perSlideDuration 7 :=
  renderPlan_product_inv 7 (by decide) (by decide)

/-! ## Silent track generator (`generateSilenceWav` and `writeString`,
route.ts lines 629–659)

The `ArrayBuffer`/`DataView` pair is modelled as a byte-count plus a total
function from offsets to byte values; a fresh `ArrayBuffer` is zero-filled,
and each `DataView` setter overwrites the little-endian bytes of its value
exactly as in JS (`setUint32` stores its argument modulo `2^32`, which is
what the byte decomposition below computes). -/

/-- One byte store into the buffer model. -/
def bufSet (view : Nat → Nat) (offset value : Nat) : Nat → Nat :=
  fun i => if i = offset then value else view i

/-- `DataView.setUint8` (used through `writeString`). -/
def setUint8 (view : Nat → Nat) (offset value : Nat) : Nat → Nat :=
  bufSet view offset (value % 256)

/-- `DataView.setUint16(offset, value, littleEndian := true)`. -/
def setUint16LE (view : Nat → Nat) (offset value : Nat) : Nat → Nat :=
  bufSet (bufSet view offset (value % 256)) (offset + 1) (value / 256 % 256)

/-- `DataView.setUint32(offset, value, littleEndian := true)`. -/
def setUint32LE (view : Nat → Nat) (offset value : Nat) : Nat → Nat :=
  bufSet (bufSet (bufSet (bufSet view
    offset (value % 256))
    (offset + 1) (value / 256 % 256))
    (offset + 2) (value / 65536 % 256))
    (offset + 3) (value / 16777216 % 256)

/-- `writeString(view, offset, value)`: one `setUint8` per character with the
char code (`charCodeAt` coincides with `Char.toNat` for the ASCII tags
written here; the string arguments are spelled as char lists so the fold
reduces syntactically). -/
def writeStringBytes (view : Nat → Nat) (offset : Nat) : List Char → (Nat → Nat)
  | [] => view
  | c :: cs => writeStringBytes (setUint8 view offset c.toNat) (offset + 1) cs

/-- `generateSilenceWav(durationSeconds)`: byte length of the produced
`Uint8Array` together with its contents. -/
def generateSilenceWav (durationSeconds : Nat) : Nat × (Nat → Nat) :=
  let sampleRate := 44100
  let channels := 1
  let bytesPerSample := 2
  let totalSamples := durationSeconds * sampleRate
  let dataLength := totalSamples * bytesPerSample * channels
  let buffer0 : Nat → Nat := fun _ => 0
  let v1 := writeStringBytes buffer0 0 ['R', 'I', 'F', 'F']
  let v2 := setUint32LE v1 4 (36 + dataLength)
  let v3 := writeStringBytes v2 8 ['W', 'A', 'V', 'E']
  let v4 := writeStringBytes v3 12 ['f', 'm', 't', ' ']
  let v5 := setUint32LE v4 16 16
  let v6 := setUint16LE v5 20 1
  let v7 := setUint16LE v6 22 channels
  let v8 := setUint32LE v7 24 sampleRate
  let v9 := setUint32LE v8 28 (sampleRate * channels * bytesPerSample)
  let v10 := setUint16LE v9 32 (channels * bytesPerSample)
  let v11 := setUint16LE v10 34 (bytesPerSample * 8)
  let v12 := writeStringBytes v11 36 ['d', 'a', 't', 'a']
  let v13 := setUint32LE v12 40 dataLength
  (44 + dataLength, v13)

/-- Little-endian read-back of a 32-bit header field. -/
def readUint32LE (view : Nat → Nat) (offset : Nat) : Nat :=
  view offset + 256 * view (offset + 1) + 65536 * view (offset + 2) +
    16777216 * view (offset + 3)

lemma bufSet_eq (v : Nat → Nat) (off val : Nat) : bufSet v off val off = val := by
  simp [bufSet]

lemma bufSet_ne (v : Nat → Nat) (off val i : Nat) (h : ¬ i = off) :
    bufSet v off val i = v i := by
  simp [bufSet, h]

lemma bufSet_skip (v : Nat → Nat) (off val i : Nat) (hoff : off ≤ 43) (hi : 44 ≤ i) :
    bufSet v off val i = v i := by
  have h : ¬ i = off := by omega
  simp [bufSet, h]

/-- C3 (counterexample): at `d = 48696` the data-chunk length
`d * 44100 * 2 = 4294987200` exceeds `2^32`, so the stored little-endian
field is the value modulo `2^32`, not `d * 44100 * 2` as the claim asserts
for every `d ≥ 1` (the buffer length itself is still `44 + d * 44100 * 2`). -/
theorem generateSilenceWav_field_overflow_cex :
    readUint32LE (generateSilenceWav 48696).2 40 ≠ 48696 * 44100 * 2 ∧
    readUint32LE (generateSilenceWav 48696).2 40 = 48696 * 44100 * 2 % 2 ^ 32 ∧
    (generateSilenceWav 48696).1 = 44 + 48696 * 44100 * 2 := by
  decide

/-- C3 (amended): for every `d ≥ 1` whose header fields fit in 32 bits
(`36 + d * 44100 * 2 < 2^32`), the generator returns a buffer of exactly
`44 + d * 44100 * 2` bytes whose little-endian data-chunk length field
(offset 40) equals `d * 44100 * 2`, whose RIFF file-length field (offset 4)
equals `36 + d * 44100 * 2`, and whose bytes from offset 44 to the end are
all zero. -/
theorem generateSilenceWav_spec_amended (d : Nat) (h1 : 1 ≤ d)
    (h2 : 36 + d * 44100 * 2 < 2 ^ 32) :
    (generateSilenceWav d).1 = 44 + d * 44100 * 2 ∧
    readUint32LE (generateSilenceWav d).2 40 = d * 44100 * 2 ∧
    readUint32LE (generateSilenceWav d).2 4 = 36 + d * 44100 * 2 ∧
    (∀ i, 44 ≤ i → i < (generateSilenceWav d).1 → (generateSilenceWav d).2 i = 0) := by
  refine ⟨?_, ?_, ?_, ?_⟩
  · simp [generateSilenceWav]
  · simp only [generateSilenceWav, readUint32LE, writeStringBytes, setUint32LE,
      setUint16LE, setUint8]
    simp [bufSet_eq, bufSet_ne]
    have hx1 : d * 44100 * 2 / 65536 = d * 44100 * 2 / 256 / 256 := by
      rw [Nat.div_div_eq_div_mul]
    have hx2 : d * 44100 * 2 / 16777216 = d * 44100 * 2 / 256 / 256 / 256 := by
      rw [Nat.div_div_eq_div_mul, Nat.div_div_eq_div_mul]
    rw [hx1, hx2]
    omega
  · simp only [generateSilenceWav, readUint32LE, writeStringBytes, setUint32LE,
      setUint16LE, setUint8]
    simp [bufSet_eq, bufSet_ne]
    have hx1 : (36 + d * 44100 * 2) / 65536 = (36 + d * 44100 * 2) / 256 / 256 := by
      rw [Nat.div_div_eq_div_mul]
    have hx2 : (36 + d * 44100 * 2) / 16777216 =
        (36 + d * 44100 * 2) / 256 / 256 / 256 := by
      rw [Nat.div_div_eq_div_mul, Nat.div_div_eq_div_mul]
    rw [hx1, hx2]
    omega
  · intro i hi _
    simp only [generateSilenceWav, writeStringBytes, setUint32LE,
      setUint16LE, setUint8]
    simp [bufSet_skip, hi]

/-- C3 (witness): the amended silence-WAV theorem instantiated at the
in-range duration `d = 240` (the four-minute target runtime). -/
theorem generateSilenceWav_spec_amended_witness :
    (generateSilenceWav 240).1 = 44 + 240 * 44100 * 2 ∧
    readUint32LE (generateSilenceWav 240).2 40 = 240 * 44100 * 2 ∧
    readUint32LE (generateSilenceWav 240).2 4 = 36 + 240 * 44100 * 2 ∧
    (generateSilenceWav 240).2 100 = 0 := by
  have h := generateSilenceWav_spec_amended 240 (by decide) (by decide)
  exact ⟨h.1, h.2.1, h.2.2.1, h.2.2.2 100 (by decide) (by decide)⟩

/-! ## Slide renderer word wrap (`drawWrappedText`, route.ts lines 556–595) -/

/-- Model of `text.split(/\s+/)` at char level: maximal whitespace runs
separate words; a leading run contributes a leading empty word and a
trailing run a trailing empty word, exactly as the JS regex split does.
`inWs` records whether the previous character belonged to the current
separator run. -/
def splitWsAux : List Char → List Char → Bool → List (List Char)
  | [], acc, _ => [acc.reverse]
  | c :: cs, acc, inWs =>
      if c.isWhitespace then
        if inWs then splitWsAux cs [] true
        else acc.reverse :: splitWsAux cs [] true
      else splitWsAux cs (c :: acc) false

/-- `const words = text.split(/\s+/)`. -/
def splitWs (s : String) : List String :=
  (splitWsAux s.toList [] false).map String.mk

/-- The greedy line-filling loop of `drawWrappedText`: extend the current
line by the next word unless the extended line measures wider than
`maxWidth` and the current line is non-empty, in which case the current
line is emitted and the word starts a fresh line; a final non-empty current
line is emitted at the end. -/
def wrapAux (measure : String → Nat) (maxWidth : Nat) :
    List String → String → List String
  | [], currentLine => if currentLine = "" then [] else [currentLine]
  | word :: ws, currentLine =>
      let testLine := if currentLine = "" then word else currentLine ++ " " ++ word
      if maxWidth < measure testLine ∧ ¬ currentLine = "" then
        currentLine :: wrapAux measure maxWidth ws word
      else wrapAux measure maxWidth ws testLine

/-- The full list of wrapped lines before truncation. -/
def wrapLines (measure : String → Nat) (maxWidth : Nat) (words : List String) :
    List String :=
  wrapAux measure maxWidth words ""

/-- `last.replace(/[.·]+$/, "")`: strip the trailing run of periods and
middle dots from the kept last line. -/
def stripTrailMarks (s : String) : String :=
  String.mk ((s.toList.reverse.dropWhile (fun c => c == '.' || c == '·')).reverse)

/-- The overflow truncation of `drawWrappedText`: when more than `maxLines`
lines were produced, keep the first `maxLines` and replace the last kept
line by its mark-stripped form with a single ellipsis character appended. -/
def truncateLines (lines : List String) (maxLines : Nat) : List String :=
  if maxLines < lines.length then
    (lines.take maxLines).dropLast ++
      [stripTrailMarks ((lines.take maxLines).getLastD "") ++ "…"]
  else lines

/-- `drawWrappedText` (pure content): the visible lines drawn by `fillText`
and the returned baseline `y + lines.length * lineHeight`.  The `measure`
argument models `context.measureText().width` (canvas drawing itself is a
side effect outside the pure embedding). -/
def drawWrappedText (measure : String → Nat) (text : String)
    (y maxWidth lineHeight maxLines : Nat) : List String × Nat :=
  let truncated := truncateLines (wrapLines measure maxWidth (splitWs text)) maxLines
  (truncated, y + truncated.length * lineHeight)

/-- The space-separated tokens of a rendered line. -/
def spaceTokens (s : String) : List String :=
  ((splitChar ' ' s.toList).filter (fun w => !w.isEmpty)).map String.mk

lemma mk_toList (s : String) : String.mk s.toList = s := rfl

lemma toList_mk (l : List Char) : (String.mk l).toList = l := rfl

lemma toList_append (a b : String) : (a ++ b).toList = a.toList ++ b.toList :=
  String.data_append a b

lemma eq_empty_iff_toList_nil (s : String) : s = "" ↔ s.toList = [] := by
  constructor
  · intro h; subst h; rfl
  · intro h
    have := congrArg String.mk h
    rwa [mk_toList] at this

lemma splitChar_ne_nil (sep : Char) (l : List Char) : splitChar sep l ≠ [] := by
  induction l with
  | nil => simp [splitChar]
  | cons c cs ih =>
      by_cases h : c = sep
      · simp [splitChar, h]
      · simp only [splitChar, if_neg h]
        cases hcs : splitChar sep cs with
        | nil => exact absurd hcs ih
        | cons x t => simp

lemma splitChar_append (sep : Char) (xs ys : List Char) :
    splitChar sep (xs ++ sep :: ys) = splitChar sep xs ++ splitChar sep ys := by
  induction xs with
  | nil => simp [splitChar]
  | cons c cs ih =>
      by_cases h : c = sep
      · simp only [List.cons_append, splitChar, if_pos h]
        exact congrArg (fun l => [] :: l) ih
      · cases hcs : splitChar sep cs with
        | nil => exact absurd hcs (splitChar_ne_nil sep cs)
        | cons x t =>
            simp only [List.cons_append, splitChar, if_neg h, hcs]
            have ih2 : splitChar sep (cs.append (sep :: ys)) =
                splitChar sep cs ++ splitChar sep ys := ih
            rw [ih2, hcs]
            simp

lemma splitChar_no_sep (sep : Char) (l : List Char) (h : ∀ c ∈ l, ¬ c = sep) :
    splitChar sep l = [l] := by
  induction l with
  | nil => rfl
  | cons c cs ih =>
      have hc : ¬ c = sep := h c (List.mem_cons_self c cs)
      simp only [splitChar, if_neg hc]
      rw [ih (fun d hd => h d (List.mem_cons_of_mem c hd))]

lemma spaceTokens_empty : spaceTokens "" = [] := rfl

lemma spaceTokens_append (a b : String) :
    spaceTokens (a ++ " " ++ b) = spaceTokens a ++ spaceTokens b := by
  unfold spaceTokens
  rw [toList_append, toList_append]
  have hsp : (" " : String).toList = [' '] := rfl
  rw [hsp, List.append_assoc, List.cons_append, List.nil_append,
    splitChar_append, List.filter_append, List.map_append]

lemma spaceTokens_of_word (w : String) (hw : ∀ c ∈ w.toList, c.isWhitespace = false) :
    spaceTokens w = if w = "" then [] else [w] := by
  unfold spaceTokens
  have hns : ∀ c ∈ w.toList, ¬ c = ' ' := by
    intro c hc heq
    have := hw c hc
    rw [heq] at this
    simp [Char.isWhitespace] at this
  rw [splitChar_no_sep ' ' w.toList hns]
  by_cases h : w = ""
  · subst h; rfl
  · rw [if_neg h]
    have hnil : ¬ w.toList.isEmpty = true := fun hE =>
      h ((eq_empty_iff_toList_nil w).mpr (List.isEmpty_iff.mp hE))
    have hne : w.data.isEmpty = false := Bool.eq_false_iff.mpr hnil
    have hmk : String.mk w.data = w := mk_toList w
    simp [List.filter, hne, hmk]

lemma wrapAux_tokens (m : String → Nat) (mw : Nat) :
    ∀ (ws : List String) (cur : String),
      (wrapAux m mw ws cur).flatMap spaceTokens =
        spaceTokens cur ++ ws.flatMap spaceTokens := by
  intro ws
  induction ws with
  | nil =>
      intro cur
      by_cases h : cur = ""
      · subst h; simp [wrapAux, spaceTokens_empty]
      · simp [wrapAux, h]
  | cons w ws ih =>
      intro cur
      by_cases hcur : cur = ""
      · subst hcur
        have hstep : wrapAux m mw (w :: ws) "" = wrapAux m mw ws w := by
          simp [wrapAux]
        rw [hstep, ih w]
        simp [spaceTokens_empty]
      · simp only [wrapAux, if_neg hcur]
        by_cases hcond : mw < m (cur ++ " " ++ w) ∧ ¬ cur = ""
        · rw [if_pos hcond, List.flatMap_cons, ih w]
          simp [List.append_assoc]
        · rw [if_neg hcond, ih (cur ++ " " ++ w), spaceTokens_append]
          simp [List.append_assoc]

lemma splitWsAux_no_ws :
    ∀ (l acc : List Char) (inWs : Bool),
      (∀ c ∈ acc, c.isWhitespace = false) →
      ∀ w ∈ splitWsAux l acc inWs, ∀ c ∈ w, c.isWhitespace = false := by
  intro l
  induction l with
  | nil =>
      intro acc inWs hacc w hw c hc
      simp only [splitWsAux, List.mem_singleton] at hw
      subst hw
      exact hacc c (List.mem_reverse.mp hc)
  | cons x xs ih =>
      intro acc inWs hacc w hw c hc
      simp only [splitWsAux] at hw
      by_cases hx : x.isWhitespace
      · rw [if_pos hx] at hw
        cases inWs with
        | true =>
            rw [if_pos rfl] at hw
            exact ih [] true (by simp) w hw c hc
        | false =>
            rw [if_neg (by simp : ¬ (false = true))] at hw
            rcases List.mem_cons.mp hw with rfl | hmem
            · exact hacc c (List.mem_reverse.mp hc)
            · exact ih [] true (by simp) w hmem c hc
      · rw [if_neg hx] at hw
        refine ih (x :: acc) false ?_ w hw c hc
        intro d hd
        rcases List.mem_cons.mp hd with rfl | hmem
        · exact Bool.eq_false_iff.mpr hx
        · exact hacc d hmem

lemma splitWs_no_ws (text : String) :
    ∀ w ∈ splitWs text, ∀ c ∈ w.toList, c.isWhitespace = false := by
  intro w hw c hc
  unfold splitWs at hw
  rcases List.mem_map.mp hw with ⟨wl, hwl, rfl⟩
  rw [toList_mk] at hc
  exact splitWsAux_no_ws text.toList [] false (by simp) wl hwl c hc

lemma flatMap_tokens_of_words (words : List String)
    (h : ∀ w ∈ words, ∀ c ∈ w.toList, c.isWhitespace = false) :
    words.flatMap spaceTokens = words.filter (fun w => !(w == "")) := by
  induction words with
  | nil => rfl
  | cons w ws ih =>
      rw [List.flatMap_cons, List.filter_cons,
        spaceTokens_of_word w (h w (List.mem_cons_self w ws)),
        ih (fun v hv => h v (List.mem_cons_of_mem w hv))]
      by_cases hw : w = ""
      · simp [hw]
      · simp [hw]

lemma wrapAux_cur_mem (m : String → Nat) (mw : Nat)
    (hsuf : ∀ a b : String, m a ≤ m (a ++ " " ++ b)) :
    ∀ (ws : List String) (cur : String), ¬ cur = "" → mw < m cur →
      cur ∈ wrapAux m mw ws cur := by
  intro ws
  induction ws with
  | nil =>
      intro cur h1 _
      simp [wrapAux, h1]
  | cons v ws ih =>
      intro cur h1 h2
      simp only [wrapAux, if_neg h1]
      rw [if_pos ⟨lt_of_lt_of_le h2 (hsuf cur v), h1⟩]
      exact List.mem_cons_self _ _

lemma wrapAux_oversized_mem (m : String → Nat) (mw : Nat)
    (hpre : ∀ a b : String, m b ≤ m (a ++ " " ++ b))
    (hsuf : ∀ a b : String, m a ≤ m (a ++ " " ++ b)) :
    ∀ (ws : List String) (cur w : String), w ∈ ws → ¬ w = "" → mw < m w →
      w ∈ wrapAux m mw ws cur := by
  intro ws
  induction ws with
  | nil =>
      intro cur w hw
      simp at hw
  | cons v ws ih =>
      intro cur w hw hne hlt
      rcases List.mem_cons.mp hw with rfl | hmem
      · by_cases hcur : cur = ""
        · subst hcur
          have hstep : wrapAux m mw (w :: ws) "" = wrapAux m mw ws w := by
            simp [wrapAux]
          rw [hstep]
          exact wrapAux_cur_mem m mw hsuf ws w hne hlt
        · simp only [wrapAux, if_neg hcur]
          rw [if_pos ⟨lt_of_lt_of_le hlt (hpre cur w), hcur⟩]
          exact List.mem_cons_of_mem _ (wrapAux_cur_mem m mw hsuf ws w hne hlt)
      · by_cases hcur : cur = ""
        · subst hcur
          have hstep : wrapAux m mw (v :: ws) "" = wrapAux m mw ws v := by
            simp [wrapAux]
          rw [hstep]
          exact ih v w hmem hne hlt
        · simp only [wrapAux, if_neg hcur]
          by_cases hcond : mw < m (cur ++ " " ++ v) ∧ ¬ cur = ""
          · rw [if_pos hcond]
            exact List.mem_cons_of_mem _ (ih v w hmem hne hlt)
          · rw [if_neg hcond]
            exact ih (cur ++ " " ++ v) w hmem hne hlt

lemma truncateLines_length (lines : List String) (maxLines : Nat)
    (h1 : 1 ≤ maxLines) (h2 : maxLines < lines.length) :
    (truncateLines lines maxLines).length = maxLines := by
  rw [truncateLines, if_pos h2, List.length_append, List.length_dropLast,
    List.length_take]
  simp
  omega

lemma truncateLines_last_ellipsis (lines : List String) (maxLines : Nat)
    (h2 : maxLines < lines.length) :
    ((truncateLines lines maxLines).getLastD "").toList.getLast? = some '…' := by
  rw [truncateLines, if_pos h2]
  rw [List.getLastD_concat]
  have : (stripTrailMarks ((lines.take maxLines).getLastD "") ++ "…").toList =
      (stripTrailMarks ((lines.take maxLines).getLastD "")).toList ++ ['…'] :=
    toList_append _ _
  rw [this, List.getLast?_concat]

lemma head?_dropWhile_eq_false (p : Char → Bool) :
    ∀ (l : List Char) (c : Char), (l.dropWhile p).head? = some c → p c = false := by
  intro l
  induction l with
  | nil => intro c h; simp [List.dropWhile] at h
  | cons x xs ih =>
      intro c h
      by_cases hp : p x = true
      · rw [List.dropWhile_cons_of_pos hp] at h
        exact ih c h
      · rw [List.dropWhile_cons_of_neg hp] at h
        simp at h
        subst h
        exact Bool.eq_false_iff.mpr hp

lemma truncateLines_last_no_mark (lines : List String) (maxLines : Nat)
    (h2 : maxLines < lines.length) :
    ∀ c, ((truncateLines lines maxLines).getLastD "").toList.dropLast.getLast? = some c →
      ¬ c = '.' ∧ ¬ c = '·' := by
  intro c hc
  rw [truncateLines, if_pos h2, List.getLastD_concat] at hc
  have he : ("…" : String).toList = ['…'] := rfl
  rw [toList_append _ "…", he, List.dropLast_concat] at hc
  unfold stripTrailMarks at hc
  rw [toList_mk, List.getLast?_reverse] at hc
  have hp := head?_dropWhile_eq_false (fun c => c == '.' || c == '·') _ c hc
  simp at hp
  exact ⟨hp.1, hp.2⟩

/-- A text-measurement function under which the claim's "oversized word is
placed alone" guarantee fails: it reports width 10 for the lone word `b` but
width 0 for every other string (canvas measurement is monotone, but the
claim quantifies over every measurement function). -/
def cexMeasure : String → Nat := fun s => if s = "b" then 10 else 0

/-- C5 (counterexample): with the measurement function `cexMeasure` and max
width 5, the word `b` of `"a b"` measures 10 > 5 on its own, yet the wrap
produces the single line `a b` — the oversized word is not placed alone on
its own line, refuting the claim as stated for arbitrary measurement
functions. -/
theorem drawWrappedText_alone_cex :
    5 < cexMeasure "b" ∧
    "b" ∈ splitWs "a b" ∧
    wrapLines cexMeasure 5 (splitWs "a b") = ["a b"] ∧
    ¬ "b" ∈ wrapLines cexMeasure 5 (splitWs "a b") := by
  decide

/-- C5 (amended): for measurement functions that are monotone under
concatenation (as `measureText` is) and `maxLines ≥ 1` (the source calls the
wrapper only with 3 and 6): (1) for every measurement function the wrap
never splits, merges, drops or reorders a word — flattening the wrapped
lines back into space-separated tokens returns exactly the non-empty words
of the input; (2) a non-empty word that alone measures wider than `maxWidth`
is placed alone on its own line; (3) whenever the wrap produces more than
`maxLines` lines, the rendered output has exactly (hence at most) `maxLines`
lines and its visible last line ends with a single appended ellipsis
character, the preceding character being no period or middle dot (those are
stripped before the marker is appended). -/
theorem drawWrappedText_spec_amended (measure : String → Nat) (text : String)
    (maxWidth maxLines y lineHeight : Nat)
    (hpre : ∀ a b : String, measure b ≤ measure (a ++ " " ++ b))
    (hsuf : ∀ a b : String, measure a ≤ measure (a ++ " " ++ b))
    (hml : 1 ≤ maxLines) :
    (wrapLines measure maxWidth (splitWs text)).flatMap spaceTokens =
      (splitWs text).filter (fun w => !(w == "")) ∧
    (∀ w ∈ splitWs text, ¬ w = "" → maxWidth < measure w →
      w ∈ wrapLines measure maxWidth (splitWs text)) ∧
    (maxLines < (wrapLines measure maxWidth (splitWs text)).length →
      (drawWrappedText measure text y maxWidth lineHeight maxLines).1.length = maxLines ∧
      (drawWrappedText measure text y maxWidth lineHeight maxLines).1.length ≤ maxLines ∧
      ((drawWrappedText measure text y maxWidth lineHeight maxLines).1.getLastD
          "").toList.getLast? = some '…' ∧
      (∀ c, ((drawWrappedText measure text y maxWidth lineHeight maxLines).1.getLastD
          "").toList.dropLast.getLast? = some c → ¬ c = '.' ∧ ¬ c = '·')) := by
  refine ⟨?_, ?_, ?_⟩
  · rw [wrapLines, wrapAux_tokens measure maxWidth (splitWs text) "",
      spaceTokens_empty, List.nil_append]
    exact flatMap_tokens_of_words _ (splitWs_no_ws text)
  · intro w hw hne hlt
    exact wrapAux_oversized_mem measure maxWidth hpre hsuf (splitWs text) "" w hw hne hlt
  · intro hover
    have h1 : (drawWrappedText measure text y maxWidth lineHeight maxLines).1 =
        truncateLines (wrapLines measure maxWidth (splitWs text)) maxLines := rfl
    rw [h1]
    have hlen := truncateLines_length _ _ hml hover
    exact ⟨hlen, le_of_eq hlen, truncateLines_last_ellipsis _ _ hover,
      truncateLines_last_no_mark _ _ hover⟩

/-- C5 (witness): the amended word-wrap theorem instantiated with the
monotone measurement `String.length`, text `"aaaa b"`, max width 2 and max
line count 1: the oversized word `aaaa` gets its own line, tokens are
preserved, and the truncated output is the single line `aaaa…`. -/
theorem drawWrappedText_spec_amended_witness :
    "aaaa" ∈ wrapLines String.length 2 (splitWs "aaaa b") ∧
    (wrapLines String.length 2 (splitWs "aaaa b")).flatMap spaceTokens =
      (splitWs "aaaa b").filter (fun w => !(w == "")) ∧
    (drawWrappedText String.length "aaaa b" 0 2 1 1).1.length = 1 ∧
    ((drawWrappedText String.length "aaaa b" 0 2 1 1).1.getLastD
        "").toList.getLast? = some '…' := by
  have hpre : ∀ a b : String, String.length b ≤ String.length (a ++ " " ++ b) := by
    intro a b
    rw [String.length_append, String.length_append]
    omega
  have hsuf : ∀ a b : String, String.length a ≤ String.length (a ++ " " ++ b) := by
    intro a b
    rw [String.length_append, String.length_append]
    omega
  have h := drawWrappedText_spec_amended String.length "aaaa b" 2 1 0 1 hpre hsuf
    (by decide)
  exact ⟨h.2.1 "aaaa" (by decide) (by decide) (by decide), h.1,
    (h.2.2 (by decide)).1, (h.2.2 (by decide)).2.2.1⟩

/-! ## Content normalizer (`GET`, route.ts lines 40–97)

Raw feed records are modelled by `RedditPost`; a listing child may carry no
record (`data` is `Option`), matching the defensive `post?.id` check.  JS
string truthiness of `post.id` is `id ≠ ""`; the `?? 0` fallbacks on
`num_comments` and `upvote_ratio` are modelled by `Option.getD`.  String
`length`/`slice` are modelled at code-point granularity. -/

/-- JS `String.prototype.trim` (drop whitespace from both ends). -/
def jsTrim (s : String) : String :=
  String.mk
    (((s.toList.dropWhile Char.isWhitespace).reverse.dropWhile
      Char.isWhitespace).reverse)

/-- `title.replace(/\.$/, "")`: remove one trailing period, if present. -/
def stripTrailingDot (s : String) : String :=
  match s.toList.getLast? with
  | some '.' => String.mk s.toList.dropLast
  | _ => s

/-- `s.slice(0, n)`. -/
def jsSlice (s : String) (n : Nat) : String :=
  String.mk (s.toList.take n)

/-- A raw feed record.  `upvoteRatioVal` is the source's `upvote_ratio`
field (an IEEE float in `[0,1]`, modelled as `Rat`; no verified claim
computes with it). -/
structure RedditPost where
  id : String
  title : String
  selftext : String
  url : String
  author : String
  created_utc : Nat
  permalink : String
  stickied : Bool
  over_18 : Bool
  thumbnail : String
  num_comments : Option Nat
  upvoteRatioVal : Option Rat
deriving DecidableEq, Repr

/-- One entry of `payload.data.children`; `data` may be absent. -/
structure RedditChild where
  data : Option RedditPost
deriving DecidableEq, Repr

/-- The `stats` object of a normalized item. -/
structure UpdateStats where
  comments : Nat
  upvoteRatioVal : Rat
deriving DecidableEq, Repr

/-- A normalized item (`IndiaUpdate` in the source). -/
structure IndiaUpdate where
  id : String
  title : String
  summary : String
  url : String
  author : String
  postedAt : String
  stats : UpdateStats
deriving DecidableEq, Repr

/-- Stand-in for `new Date(ms).toISOString()`: calendar formatting is not
modelled, and no verified claim inspects `postedAt`. -/
def dateToISOString (ms : Nat) : String :=
  toString ms

/-- The derived summary before capping: the trimmed `selftext`, or — when
that is empty — the fallback sentence embedding the title with any single
trailing period stripped, followed by the fixed call-to-action clause. -/
def derivedSummary (post : RedditPost) : String :=
  let summarySource := jsTrim post.selftext
  if summarySource = "" then
    "Stay informed: " ++ stripTrailingDot post.title ++
      ". For the full context, visit the linked article."
  else summarySource

/-- The per-record mapping of the normalizer (route.ts lines 69–87),
including the 600-character cap with cut at 597 plus `"..."`. -/
def toUpdate (post : RedditPost) : IndiaUpdate :=
  let summary := derivedSummary post
  { id := post.id
    title := post.title
    summary := if 600 < summary.length then jsSlice summary 597 ++ "..." else summary
    url := "https://www.reddit.com" ++ post.permalink
    author := post.author
    postedAt := dateToISOString (post.created_utc * 1000)
    stats := { comments := post.num_comments.getD 0
               upvoteRatioVal := post.upvoteRatioVal.getD 0 } }

def ITEMS_LIMIT : Nat := 10

/-- The normalization chain of `GET` (route.ts lines 64–87):
`.map(item => item.data)`, `.filter(Boolean(post?.id))`,
`.filter(!stickied && !over_18)`, `.slice(0, ITEMS_LIMIT)`, `.map(toUpdate)`.
The `filterMap` after the id filter extracts the records the TS type guard
narrows to `RedditPost`. -/
def GETitems (children : List RedditChild) : List IndiaUpdate :=
  (((((children.map (fun c => c.data)).filter
      (fun p => (p.map (fun q => q.id != "")).getD false)).filterMap
      (fun p => p)).filter
      (fun p => !p.stickied && !p.over_18)).take ITEMS_LIMIT).map toUpdate

lemma eligible_eq (children : List RedditChild) :
    ((((children.map (fun c => c.data)).filter
        (fun p => (p.map (fun q => q.id != "")).getD false)).filterMap
        (fun p => p)).filter
        (fun p => !p.stickied && !p.over_18)) =
      (children.filterMap (fun c => c.data)).filter
        (fun p => p.id != "" && (!p.stickied && !p.over_18)) := by
  induction children with
  | nil => rfl
  | cons c cs ih =>
      cases hc : c.data with
      | none => simp [hc, ih]
      | some p =>
          by_cases hid : p.id = ""
          · simp [hc, hid, ih]
          · by_cases hst : p.stickied
            · simp [hc, hid, hst, ih]
            · by_cases ho : p.over_18
              · simp [hc, hid, hst, ho, ih]
              · simp [hc, hid, hst, ho, ih]

/-- A concrete raw record for the normalizer test instance. -/
def samplePost (i : Nat) (stick adult : Bool) : RedditPost :=
  { id := "p" ++ toString i
    title := "Title"
    selftext := "Body text."
    url := ""
    author := "author"
    created_utc := 1700000000
    permalink := "/r/india/comments/" ++ toString i
    stickied := stick
    over_18 := adult
    thumbnail := ""
    num_comments := some 3
    upvoteRatioVal := some 1 }

/-- Twelve raw records (all with identifiers): records 3 and 7 pinned,
record 10 adult-flagged. -/
def sampleChildren12 : List RedditChild :=
  [⟨some (samplePost 1 false false)⟩, ⟨some (samplePost 2 false false)⟩,
   ⟨some (samplePost 3 true false)⟩, ⟨some (samplePost 4 false false)⟩,
   ⟨some (samplePost 5 false false)⟩, ⟨some (samplePost 6 false false)⟩,
   ⟨some (samplePost 7 true false)⟩, ⟨some (samplePost 8 false false)⟩,
   ⟨some (samplePost 9 false false)⟩, ⟨some (samplePost 10 false true)⟩,
   ⟨some (samplePost 11 false false)⟩, ⟨some (samplePost 12 false false)⟩]

/-- C7: the normalizer equals, for every input, the order-preserving filter
that drops records with a missing (absent or empty) identifier and records
flagged pinned/sticky or adult, truncated to the first `ITEMS_LIMIT`
survivors and mapped to normalized items; its output never exceeds
`ITEMS_LIMIT` items.  On the concrete 12-record input with 2 pinned records
and 1 adult record and bound 10, it yields exactly the 9 surviving
identifiers in input order. -/
theorem normalizer_filter_spec :
    (∀ children : List RedditChild,
      GETitems children =
        (((children.filterMap (fun c => c.data)).filter
            (fun p => p.id != "" && (!p.stickied && !p.over_18))).take
          ITEMS_LIMIT).map toUpdate ∧
      (GETitems children).length ≤ ITEMS_LIMIT) ∧
    (GETitems sampleChildren12).length = 9 ∧
    (GETitems sampleChildren12).map (fun u => u.id) =
      ["p1", "p2", "p4", "p5", "p6", "p8", "p9", "p11", "p12"] := by
  refine ⟨fun children => ⟨?_, ?_⟩, by decide, by decide⟩
  · rw [GETitems, eligible_eq]
  · rw [GETitems]
    rw [List.length_map, List.length_take]
    omega

/-- C8: every normalized item's summary is at most 600 characters; when the
derived summary exceeds the cap it is cut at 597 characters with the
ellipsis marker `...` appended, giving length exactly 600; otherwise it is
kept verbatim. -/
theorem summary_cap_spec (post : RedditPost) :
    (toUpdate post).summary.length ≤ 600 ∧
    (600 < (derivedSummary post).length →
      (toUpdate post).summary = jsSlice (derivedSummary post) 597 ++ "..." ∧
      (toUpdate post).summary.length = 600) ∧
    ((derivedSummary post).length ≤ 600 →
      (toUpdate post).summary = derivedSummary post) := by
  have hsum : (toUpdate post).summary =
      if 600 < (derivedSummary post).length
      then jsSlice (derivedSummary post) 597 ++ "..." else derivedSummary post := rfl
  by_cases h : 600 < (derivedSummary post).length
  · rw [hsum, if_pos h]
    have hlen : (jsSlice (derivedSummary post) 597 ++ "...").length = 600 := by
      rw [String.length_append]
      have h1 : (jsSlice (derivedSummary post) 597).length = 597 := by
        have h2 : (jsSlice (derivedSummary post) 597).length =
            ((derivedSummary post).toList.take 597).length := rfl
        have h3 : (derivedSummary post).toList.length = (derivedSummary post).length :=
          rfl
        rw [h2, List.length_take]
        omega
      rw [h1]
      decide
    exact ⟨le_of_eq hlen, fun _ => ⟨rfl, hlen⟩,
      fun hle => absurd h (Nat.not_lt.mpr hle)⟩
  · rw [hsum, if_neg h]
    exact ⟨Nat.le_of_not_lt h, fun hgt => absurd hgt h, fun _ => rfl⟩

/-- A record whose body text is 601 identical characters (over the cap). -/
def longPost : RedditPost :=
  { samplePost 1 false false with selftext := String.mk (List.replicate 601 'a') }

set_option maxRecDepth 10000 in
/-- C8 (witness): the cap theorem applied to a record whose derived summary
has 601 characters (truncated to exactly 600) and to a record with a short
body (kept verbatim). -/
theorem summary_cap_spec_witness :
    (toUpdate longPost).summary.length = 600 ∧
    (toUpdate (samplePost 1 false false)).summary =
      derivedSummary (samplePost 1 false false) := by
  refine ⟨((summary_cap_spec longPost).2.1 (by decide)).2, ?_⟩
  exact (summary_cap_spec (samplePost 1 false false)).2.2 (by decide)

/-! ## Pipeline orchestrator (`handleGenerateVideo`, route.ts lines 200–288)

The React component state touched by the handler is collected into
`AppState`; object URLs are modelled as numeric handles.  The collaborators
(`ensureFFmpeg`, `renderSlide`, `ffmpeg.run`) are abstracted by a `RunEnv`
telling which stage succeeds; the handler is a function from state and
environment to the successor state together with the ordered trace of
collaborator actions it performs.  The ffmpeg logger's appends to `logs`
during a run are elided (the handler itself only clears `logs` at the
start); stage error messages stand in for the thrown `err.message`. -/

/-- Observable actions of one generation run, in execution order. -/
inductive RunAction where
  | ensureEncoder : RunAction
  | renderSlide : Nat → RunAction
  | writeSlideFile : Nat → RunAction
  | writeManifest : RunAction
  | writeSilence : RunAction
  | invokeEncoder : RunAction
  | readOutput : RunAction
  | createObjectUrl : Nat → RunAction
  | revokeObjectUrl : Nat → RunAction
deriving DecidableEq, Repr

/-- Outcome of each collaborator for one run. -/
structure RunEnv where
  ensureOk : Bool
  renderOk : Nat → Bool
  encodeOk : Bool
  newUrl : Nat

/-- The component state touched by the handler. -/
structure AppState where
  updates : List IndiaUpdate
  narration : String
  error : Option String
  isGenerating : Bool
  videoUrl : Option Nat
  videoDuration : Option Nat
  logs : List String
deriving DecidableEq, Repr

def preconditionMessage : String :=
  "Fetch the latest India updates before generating a video."

def canvasFailureMessage : String :=
  "Failed to initialise canvas rendering context."

def encoderLoadFailureMessage : String :=
  "encoder failed to load"

def encoderRunFailureMessage : String :=
  "encoder run failed"

/-- The slide loop (route.ts lines 220–226): render slide `i`, write its
file, continue; abort on the first failing render.  Arguments: next index,
number of slides remaining. -/
def renderSlidesGo (env : RunEnv) : Nat → Nat → List RunAction × Bool
  | _, 0 => ([], true)
  | i, k + 1 =>
      if env.renderOk i then
        (RunAction.renderSlide i :: RunAction.writeSlideFile i ::
          (renderSlidesGo env (i + 1) k).1, (renderSlidesGo env (i + 1) k).2)
      else ([RunAction.renderSlide i], false)

/-- `handleGenerateVideo`: the empty-list guard, then `ensureFFmpeg`, the
plan computation, the slide loop, manifest and silence writes, the encoder
run, output read, object-URL creation, and — only then — revocation of the
previous video URL; every failure path sets the error message and clears
`isGenerating` (the `finally` clause), leaving the video fields untouched. -/
def handleGenerateVideo (s : AppState) (env : RunEnv) : AppState × List RunAction :=
  if s.updates.length = 0 then
    ({ s with error := some preconditionMessage }, [])
  else
    let s1 : AppState := { s with isGenerating := true, error := none, logs := [] }
    if env.ensureOk = false then
      ({ s1 with error := some encoderLoadFailureMessage, isGenerating := false },
        [RunAction.ensureEncoder])
    else
      let slides := renderSlidesGo env 0 s.updates.length
      if slides.2 = false then
        ({ s1 with error := some canvasFailureMessage, isGenerating := false },
          RunAction.ensureEncoder :: slides.1)
      else if env.encodeOk = false then
        ({ s1 with error := some encoderRunFailureMessage, isGenerating := false },
          RunAction.ensureEncoder :: slides.1 ++
            [RunAction.writeManifest, RunAction.writeSilence, RunAction.invokeEncoder])
      else
        ({ s1 with isGenerating := false,
                   videoUrl := some env.newUrl,
                   videoDuration :=
                     some (perSlideDuration s.updates.length * s.updates.length) },
          RunAction.ensureEncoder :: slides.1 ++
            [RunAction.writeManifest, RunAction.writeSilence, RunAction.invokeEncoder,
             RunAction.readOutput, RunAction.createObjectUrl env.newUrl] ++
            (match s.videoUrl with
             | some u => [RunAction.revokeObjectUrl u]
             | none => []))

/-- C6: requesting generation with an empty item list is rejected
synchronously: the only state change is the precondition error message, the
action trace is empty — so no slide is rendered, no file written, no URL
created or revoked, and the encoder is never invoked — and items, narration,
generating flag, video, duration and logs are all left unchanged. -/
theorem generate_empty_precondition (s : AppState) (env : RunEnv)
    (h : s.updates = []) :
    (handleGenerateVideo s env).1 = { s with error := some preconditionMessage } ∧
    (handleGenerateVideo s env).2 = [] ∧
    ¬ RunAction.invokeEncoder ∈ (handleGenerateVideo s env).2 ∧
    (handleGenerateVideo s env).1.updates = s.updates ∧
    (handleGenerateVideo s env).1.narration = s.narration ∧
    (handleGenerateVideo s env).1.isGenerating = s.isGenerating ∧
    (handleGenerateVideo s env).1.videoUrl = s.videoUrl ∧
    (handleGenerateVideo s env).1.videoDuration = s.videoDuration ∧
    (handleGenerateVideo s env).1.logs = s.logs := by
  have hlen : s.updates.length = 0 := by rw [h]; rfl
  have hmain : handleGenerateVideo s env =
      ({ s with error := some preconditionMessage }, []) := by
    rw [handleGenerateVideo, if_pos hlen]
  rw [hmain]
  simp

/-- An idle state with no fetched items. -/
def emptyIdleState : AppState :=
  { updates := [], narration := "", error := none, isGenerating := false,
    videoUrl := none, videoDuration := none, logs := [] }

/-- An environment in which every collaborator succeeds. -/
def okEnv : RunEnv :=
  { ensureOk := true, renderOk := fun _ => true, encodeOk := true, newUrl := 1 }

/-- C6 (witness): the precondition rejection at the concrete idle state. -/
theorem generate_empty_precondition_witness :
    (handleGenerateVideo emptyIdleState okEnv).1 =
      { emptyIdleState with error := some preconditionMessage } ∧
    (handleGenerateVideo emptyIdleState okEnv).2 = [] := by
  have h := generate_empty_precondition emptyIdleState okEnv rfl
  exact ⟨h.1, h.2.1⟩


lemma renderSlidesGo_no_revoke (env : RunEnv) :
    ∀ (k i u : Nat), ¬ RunAction.revokeObjectUrl u ∈ (renderSlidesGo env i k).1 := by
  intro k
  induction k with
  | zero => intro i u; simp [renderSlidesGo]
  | succ k ih =>
      intro i u
      by_cases h : env.renderOk i = true
      · simp [renderSlidesGo, h, ih]
      · simp [renderSlidesGo, h]

/-- C9: from a state holding a previously produced video
(`videoUrl = some u`), any run that fails at any stage — encoder load, a
slide render, or the encoder invocation — leaves the prior video handle and
its recorded duration untouched and never revokes the handle; conversely,
the prior handle is revoked only by a run in which every stage succeeded,
which supersedes it with the newly created video and its plan duration. -/
theorem prior_video_preserved_on_failure (s : AppState) (env : RunEnv) (u : Nat)
    (hprev : s.videoUrl = some u) :
    ((env.ensureOk = false ∨ (renderSlidesGo env 0 s.updates.length).2 = false ∨
        env.encodeOk = false) →
      (handleGenerateVideo s env).1.videoUrl = some u ∧
      (handleGenerateVideo s env).1.videoDuration = s.videoDuration ∧
      ¬ RunAction.revokeObjectUrl u ∈ (handleGenerateVideo s env).2) ∧
    (RunAction.revokeObjectUrl u ∈ (handleGenerateVideo s env).2 →
      env.ensureOk = true ∧ (renderSlidesGo env 0 s.updates.length).2 = true ∧
      env.encodeOk = true ∧
      (handleGenerateVideo s env).1.videoUrl = some env.newUrl ∧
      (handleGenerateVideo s env).1.videoDuration =
        some (perSlideDuration s.updates.length * s.updates.length)) := by
  by_cases h0 : s.updates.length = 0
  · have hmain : handleGenerateVideo s env =
        ({ s with error := some preconditionMessage }, []) := by
      simp [handleGenerateVideo, h0]
    rw [hmain]
    exact ⟨fun _ => ⟨hprev, rfl, by simp⟩, fun hmem => absurd hmem (by simp)⟩
  · by_cases h1 : env.ensureOk = false
    · have hmain : handleGenerateVideo s env =
          ({ s with isGenerating := false,
                    error := some encoderLoadFailureMessage,
                    logs := [] }, [RunAction.ensureEncoder]) := by
        simp [handleGenerateVideo, h0, h1]
      rw [hmain]
      refine ⟨fun _ => ⟨hprev, rfl, by simp⟩, fun hmem => absurd hmem (by simp)⟩
    · have h1t : env.ensureOk = true := by
        cases he : env.ensureOk
        · exact absurd he h1
        · rfl
      by_cases hs : (renderSlidesGo env 0 s.updates.length).2 = false
      · have hmain : handleGenerateVideo s env =
            ({ s with isGenerating := false,
                      error := some canvasFailureMessage,
                      logs := [] },
              RunAction.ensureEncoder :: (renderSlidesGo env 0 s.updates.length).1) := by
          simp [handleGenerateVideo, h0, h1t, hs]
        rw [hmain]
        refine ⟨fun _ => ⟨hprev, rfl, ?_⟩, fun hmem => ?_⟩
        · simp [renderSlidesGo_no_revoke env s.updates.length 0 u]
        · exact absurd hmem (by simp [renderSlidesGo_no_revoke env s.updates.length 0 u])
      · have hst : (renderSlidesGo env 0 s.updates.length).2 = true := by
          cases hx : (renderSlidesGo env 0 s.updates.length).2
          · exact absurd hx hs
          · rfl
        by_cases he : env.encodeOk = false
        · have hmain : handleGenerateVideo s env =
              ({ s with isGenerating := false,
                        error := some encoderRunFailureMessage,
                        logs := [] },
                RunAction.ensureEncoder :: (renderSlidesGo env 0 s.updates.length).1 ++
                  [RunAction.writeManifest, RunAction.writeSilence,
                   RunAction.invokeEncoder]) := by
            simp [handleGenerateVideo, h0, h1t, hs, he]
          rw [hmain]
          refine ⟨fun _ => ⟨hprev, rfl, ?_⟩, fun hmem => ?_⟩
          · simp [renderSlidesGo_no_revoke env s.updates.length 0 u]
          · exact absurd hmem
              (by simp [renderSlidesGo_no_revoke env s.updates.length 0 u])
        · have het : env.encodeOk = true := by
            cases hx : env.encodeOk
            · exact absurd hx he
            · rfl
          have hmain : handleGenerateVideo s env =
              ({ s with isGenerating := false,
                        error := none,
                        logs := [],
                        videoUrl := some env.newUrl,
                        videoDuration :=
                          some (perSlideDuration s.updates.length *
                            s.updates.length) },
                RunAction.ensureEncoder :: (renderSlidesGo env 0 s.updates.length).1 ++
                  [RunAction.writeManifest, RunAction.writeSilence,
                   RunAction.invokeEncoder, RunAction.readOutput,
                   RunAction.createObjectUrl env.newUrl] ++
                  [RunAction.revokeObjectUrl u]) := by
            simp [handleGenerateVideo, h0, h1t, hs, he, hprev]
          rw [hmain]
          refine ⟨fun hfail => ?_, fun _ => ⟨h1t, hst, het, rfl, rfl⟩⟩
          rcases hfail with hf | hf | hf
          · rw [hf] at h1t; exact absurd h1t (by simp)
          · exact absurd hf hs
          · rw [hf] at het; exact absurd het (by simp)

/-- A concrete normalized item for the orchestrator instances. -/
def sampleUpdate : IndiaUpdate :=
  { id := "u1", title := "Title", summary := "Summary", url := "https://example",
    author := "author", postedAt := "0",
    stats := { comments := 0, upvoteRatioVal := 1 } }

/-- A state in which an earlier run already produced video handle 7. -/
def priorVideoState : AppState :=
  { updates := [sampleUpdate], narration := "n", error := none,
    isGenerating := false, videoUrl := some 7, videoDuration := some 240,
    logs := [] }

/-- An environment whose encoder invocation fails. -/
def failEnv : RunEnv :=
  { ensureOk := true, renderOk := fun _ => true, encodeOk := false, newUrl := 9 }

/-- C9 (witness): from the concrete prior-video state, a run whose encoder
invocation fails keeps video handle 7 and duration 240 and never revokes
the handle. -/
theorem prior_video_preserved_on_failure_witness :
    (handleGenerateVideo priorVideoState failEnv).1.videoUrl = some 7 ∧
    (handleGenerateVideo priorVideoState failEnv).1.videoDuration = some 240 ∧
    ¬ RunAction.revokeObjectUrl 7 ∈ (handleGenerateVideo priorVideoState failEnv).2 := by
  have h := (prior_video_preserved_on_failure priorVideoState failEnv 7 rfl).1
    (Or.inr (Or.inr rfl))
  exact ⟨h.1, h.2.1.trans rfl, h.2.2⟩

/-- C10 (counterexample): in a fully successful run from the concrete
prior-video state, the trace renders slide 0, writes the manifest and
silence, invokes the encoder and reads its output — and only afterwards
revokes the prior video handle 7; the revocation is not performed before the
rendering phase as the claim asserts. -/
theorem prior_video_revoked_late_cex :
    (handleGenerateVideo priorVideoState okEnv).2 =
      [RunAction.ensureEncoder, RunAction.renderSlide 0, RunAction.writeSlideFile 0,
       RunAction.writeManifest, RunAction.writeSilence, RunAction.invokeEncoder,
       RunAction.readOutput, RunAction.createObjectUrl 1,
       RunAction.revokeObjectUrl 7] ∧
    RunAction.revokeObjectUrl 7 ∈ (handleGenerateVideo priorVideoState okEnv).2 ∧
    List.indexOf (RunAction.renderSlide 0) (handleGenerateVideo priorVideoState okEnv).2 <
      List.indexOf (RunAction.revokeObjectUrl 7)
        (handleGenerateVideo priorVideoState okEnv).2 := by
  decide

/-- C10 (amended): the prior video handle is released only as the very last
action of a fully successful run — after slide rendering, manifest and
silence generation, encoder invocation, output retrieval and creation of the
new object URL — never before the rendering phase, and never at all in a
failed run (see the C9 theorem for the failure half). -/
theorem prior_video_release_order_amended (s : AppState) (env : RunEnv) (u : Nat)
    (hprev : s.videoUrl = some u) (hne : ¬ s.updates.length = 0)
    (h1 : env.ensureOk = true)
    (hs : (renderSlidesGo env 0 s.updates.length).2 = true)
    (he : env.encodeOk = true) :
    (handleGenerateVideo s env).2 =
      (RunAction.ensureEncoder :: (renderSlidesGo env 0 s.updates.length).1 ++
        [RunAction.writeManifest, RunAction.writeSilence, RunAction.invokeEncoder,
         RunAction.readOutput, RunAction.createObjectUrl env.newUrl]) ++
      [RunAction.revokeObjectUrl u] ∧
    (handleGenerateVideo s env).2.getLast? = some (RunAction.revokeObjectUrl u) ∧
    RunAction.invokeEncoder ∈ (handleGenerateVideo s env).2.dropLast ∧
    RunAction.readOutput ∈ (handleGenerateVideo s env).2.dropLast ∧
    ¬ RunAction.revokeObjectUrl u ∈ (handleGenerateVideo s env).2.dropLast := by
  have hsf : ¬ (renderSlidesGo env 0 s.updates.length).2 = false := by simp [hs]
  have hef : ¬ env.encodeOk = false := by simp [he]
  have hmain : handleGenerateVideo s env =
      ({ s with isGenerating := false,
                error := none,
                logs := [],
                videoUrl := some env.newUrl,
                videoDuration :=
                  some (perSlideDuration s.updates.length * s.updates.length) },
        (RunAction.ensureEncoder :: (renderSlidesGo env 0 s.updates.length).1 ++
          [RunAction.writeManifest, RunAction.writeSilence, RunAction.invokeEncoder,
           RunAction.readOutput, RunAction.createObjectUrl env.newUrl]) ++
        [RunAction.revokeObjectUrl u]) := by
    simp [handleGenerateVideo, hne, h1, hsf, hef, hprev]
  rw [hmain]
  refine ⟨rfl, List.getLast?_concat _, ?_, ?_, ?_⟩
  · rw [List.dropLast_concat]
    simp
  · rw [List.dropLast_concat]
    simp
  · rw [List.dropLast_concat]
    simp [renderSlidesGo_no_revoke env s.updates.length 0 u]

/-- C10 (witness): the amended release-order theorem at the concrete
prior-video state under the all-success environment: the revocation of
handle 7 is the final action, with the encoder invocation and output read
strictly before it. -/
theorem prior_video_release_order_amended_witness :
    (handleGenerateVideo priorVideoState okEnv).2.getLast? =
      some (RunAction.revokeObjectUrl 7) ∧
    RunAction.invokeEncoder ∈ (handleGenerateVideo priorVideoState okEnv).2.dropLast ∧
    RunAction.readOutput ∈ (handleGenerateVideo priorVideoState okEnv).2.dropLast := by
  have h := prior_video_release_order_amended priorVideoState okEnv 7 rfl
    (by decide) rfl (by decide) rfl
  exact ⟨h.2.1, h.2.2.1, h.2.2.2.1⟩
